import Mathlib

/-!
Verification development for the timeboxing-habits application core
(calendar scheduling and completion-tracking engine).

Dates are modelled as integer day numbers (days since 1970-01-01).  The
source pins every `Date` to local noon, so a calendar day corresponds to
exactly one such integer; `parseISODate`/`toISODate` become the identity
on day numbers and `addDays` becomes integer addition.  `Date.getDay`
(0 = Sunday .. 6 = Saturday) becomes `weekday` below, using the fact that
day number 0 (1970-01-01) was a Thursday.  The civil (year, month, day)
fields that `Date` exposes through `getFullYear`/`getMonth`/`getDate` and
mutates through `setDate`/`setMonth` are recovered through the standard
proleptic-Gregorian conversions `civilFromDays`/`daysFromCivil`.

JavaScript objects keyed by ISO date strings are modelled as association
lists keyed by day numbers: the key set and its insertion order are
observable in the source (via `Object.keys` and JSON serialization), so a
bare function model would be too coarse.  Division `/` and `%` on `Int`
below are Lean's Euclidean operations, which agree with mathematical
floor division/modulus for the positive divisors used here.
-/

namespace TBH

/-- JavaScript `Date.prototype.getDay`: 0 = Sunday .. 6 = Saturday.
Day number 0 (1970-01-01) was a Thursday, hence the offset 4. -/
def weekday (n : Int) : Int := (n + 4) % 7

/-- `startOfDay` from the source: pins the time-of-day to noon.  In the
day-number model this is the identity. -/
def startOfDay (n : Int) : Int := n

/-- `addDays` from the source: shift by `k` days, re-pin to noon. -/
def addDays (n k : Int) : Int := n + k

/-- `startOfISOWeek` from the source: Monday-anchored week start,
`diff = day === 0 ? -6 : 1 - day`. -/
def startOfISOWeek (n : Int) : Int :=
  let x := startOfDay n
  let day := weekday x
  let diff := if day = 0 then -6 else 1 - day
  addDays x diff

/-- `endOfISOWeek` from the source: `addDays (startOfISOWeek d) 6`. -/
def endOfISOWeek (n : Int) : Int := addDays (startOfISOWeek n) 6

/-- Leap-corrected day count used by the day-to-civil conversion:
`doe - doe/1460 + doe/36524 - doe/146096`. -/
def leapAdjusted (doe : Int) : Int :=
  doe - doe / 1460 + doe / 36524 - doe / 146096

/-- Number of days that precede year-of-era `v` within a 400-year
Gregorian era: `365 v + v/4 - v/100`. -/
def daysBeforeYoe (v : Int) : Int := 365 * v + v / 4 - v / 100

/-- Civil-from-days conversion (proleptic Gregorian calendar): the
arithmetic JavaScript `Date` performs internally to expose
`getFullYear`/`getMonth`/`getDate` for a noon-pinned date.
Returns `(year, month 1..12, day 1..31)`. -/
def civilFromDays (n : Int) : Int × Int × Int :=
  let z := n + 719468
  let era := z / 146097
  let doe := z - era * 146097
  let yoe := leapAdjusted doe / 365
  let y := yoe + era * 400
  let doy := doe - daysBeforeYoe yoe
  let mp := (5 * doy + 2) / 153
  let d := doy - (153 * mp + 2) / 5 + 1
  let m := mp + (if mp < 10 then 3 else -9)
  (if m ≤ 2 then y + 1 else y, m, d)

/-- Days-from-civil conversion (inverse direction): the arithmetic
JavaScript `Date` performs when civil fields are assigned
(`setDate`/`setMonth`). -/
def daysFromCivil (y m d : Int) : Int :=
  let y' := if m ≤ 2 then y - 1 else y
  let era := y' / 400
  let yoe := y' - era * 400
  let mp := (m + 9) % 12
  let doy := (153 * mp + 2) / 5 + d - 1
  let doe := yoe * 365 + yoe / 4 - yoe / 100 + doy
  era * 146097 + doe - 719468

/-- `startOfMonth` from the source: `x.setDate(1)` on the noon-pinned
date, i.e. the first day of the month containing `n`. -/
def startOfMonth (n : Int) : Int :=
  let c := civilFromDays n
  daysFromCivil c.1 c.2.1 1

/-- The first civil day of the month after `(y, m)` (JavaScript
`setMonth (m + 1)` rolls December over to January of the next year). -/
def firstOfNextMonth (y m : Int) : Int :=
  if m = 12 then daysFromCivil (y + 1) 1 1 else daysFromCivil y (m + 1) 1

/-- `endOfMonth` from the source: `setMonth(m + 1)` then `setDate(0)`,
i.e. the day before the first day of the next month. -/
def endOfMonth (n : Int) : Int :=
  let c := civilFromDays n
  firstOfNextMonth c.1 c.2.1 - 1

/-- The inclusive day range `[s, e]`, as produced by the source loops
`for (let d = s; d <= e; d = addDays(d, 1))`. -/
def dayRange (s e : Int) : List Int :=
  (List.range (e + 1 - s).toNat).map (fun k : Nat => s + (k : Int))

/-- `monthDays` from the source: the month-view grid for the month
containing `n`, running from `startOfISOWeek (startOfMonth n)` to
`addDays (startOfISOWeek (addDays (endOfMonth n) 6)) 6`. -/
def monthDays (n : Int) : List Int :=
  let first := startOfMonth n
  let last := endOfMonth n
  let gridStart := startOfISOWeek first
  let gridEnd := addDays (startOfISOWeek (addDays last 6)) 6
  dayRange gridStart gridEnd

/-- `weekDays` from the source: the 7 days of the Monday-started week
containing `n`. -/
def weekDays (n : Int) : List Int :=
  (List.range 7).map (fun i => addDays (startOfISOWeek n) (i : Int))

/-- The three calendar views of the application. -/
inductive View where
  | day
  | week
  | month
deriving DecidableEq

/-- `visibleISOs` from the source: the visible date set implied by the
current view and selected date. -/
def visibleISOs (v : View) (n : Int) : List Int :=
  match v with
  | View.day => [n]
  | View.week => weekDays n
  | View.month => monthDays n

/-! ### Calendar facts -/

/-- A bounded boolean sweep: `allBelow f k` holds iff `f j` holds for
every `j < k`. -/
def allBelow (f : Nat → Bool) : Nat → Bool
  | 0 => true
  | k + 1 => if f k then allBelow f k else false

theorem allBelow_spec (f : Nat → Bool) :
    ∀ k, allBelow f k = true → ∀ j, j < k → f j = true := by
  intro k
  induction k with
  | zero => intro _ j hj; omega
  | succ k ih =>
    intro h j hj
    simp only [allBelow] at h
    by_cases hf : f k = true
    · rw [hf] at h
      simp only [if_true] at h
      rcases Nat.lt_succ_iff_lt_or_eq.mp hj with h2 | h2
      · exact ih h j h2
      · rw [h2]; exact hf
    · rw [Bool.not_eq_true] at hf
      rw [hf] at h
      simp at h

/-- Per-year endpoint check for the year-of-era extraction: at the first
and the last day of year-of-era `v`, the quotient
`leapAdjusted doe / 365` recovers `v`. -/
def yoeEndpointCheck (v : Nat) : Bool :=
  let vi : Int := (v : Int)
  decide (leapAdjusted (daysBeforeYoe vi) / 365 = vi) &&
    decide (leapAdjusted (daysBeforeYoe (vi + 1) - 1) / 365 = vi)

set_option maxRecDepth 8000 in
theorem yoeEndpoints_ok : allBelow yoeEndpointCheck 400 = true := by decide

theorem leapAdjusted_mono (d1 d2 : Int) (h : d1 ≤ d2) :
    leapAdjusted d1 ≤ leapAdjusted d2 := by
  simp only [leapAdjusted]
  omega

theorem daysBeforeYoe_step (v : Int) :
    daysBeforeYoe v + 365 ≤ daysBeforeYoe (v + 1) ∧
      daysBeforeYoe (v + 1) ≤ daysBeforeYoe v + 366 := by
  simp only [daysBeforeYoe]
  omega

/-- Discrete intermediate-value search: every day-of-era below
`daysBeforeYoe 400` falls inside the day span of some year-of-era. -/
theorem yoe_interval_exists (doe : Int) (h0 : 0 ≤ doe) :
    ∀ w : Nat, w ≤ 400 → doe < daysBeforeYoe (w : Int) →
      ∃ v : Int, 0 ≤ v ∧ v + 1 ≤ (w : Int) ∧
        daysBeforeYoe v ≤ doe ∧ doe < daysBeforeYoe (v + 1) := by
  intro w
  induction w with
  | zero =>
    intro _ hlt
    exfalso
    have : daysBeforeYoe 0 = 0 := by decide
    simp only [Nat.cast_zero] at hlt
    omega
  | succ k ih =>
    intro hk hlt
    by_cases hcase : doe < daysBeforeYoe (k : Int)
    · obtain ⟨v, hv⟩ := ih (by omega) hcase
      exact ⟨v, by push_cast at hv ⊢; omega⟩
    · refine ⟨(k : Int), by omega, by push_cast; omega, by omega, ?_⟩
      have hc : ((k + 1 : Nat) : Int) = (k : Int) + 1 := by push_cast; ring
      rw [hc] at hlt
      exact hlt

/-- The core year-of-era bound: for every day-of-era in `[0, 146096]`,
the extracted year-of-era lies in `[0, 399]` and the day-of-year offset
lies in `[0, 365]`. -/
theorem yoe_doy_bounds (doe : Int) (h0 : 0 ≤ doe) (h1 : doe ≤ 146096) :
    0 ≤ leapAdjusted doe / 365 ∧ leapAdjusted doe / 365 ≤ 399 ∧
      0 ≤ doe - daysBeforeYoe (leapAdjusted doe / 365) ∧
      doe - daysBeforeYoe (leapAdjusted doe / 365) ≤ 365 := by
  by_cases hedge : doe = 146096
  · subst hedge; decide
  · have h400 : daysBeforeYoe 400 = 146096 := by decide
    obtain ⟨v, hv0, hv400, hvlo, hvhi⟩ :=
      yoe_interval_exists doe h0 400 (le_refl _) (by push_cast; omega)
    have hep : yoeEndpointCheck v.toNat = true := by
      apply allBelow_spec yoeEndpointCheck 400 yoeEndpoints_ok
      omega
    simp only [yoeEndpointCheck, Bool.and_eq_true, decide_eq_true_eq] at hep
    have hcast : ((v.toNat : Nat) : Int) = v := by omega
    rw [hcast] at hep
    obtain ⟨hepL, hepR⟩ := hep
    have hm1 : leapAdjusted (daysBeforeYoe v) ≤ leapAdjusted doe :=
      leapAdjusted_mono _ _ hvlo
    have hm2 : leapAdjusted doe ≤ leapAdjusted (daysBeforeYoe (v + 1) - 1) :=
      leapAdjusted_mono _ _ (by omega)
    have hq : leapAdjusted doe / 365 = v := by omega
    rw [hq]
    have hstep := daysBeforeYoe_step v
    omega

/-- Month and day-of-month ranges produced by `civilFromDays`: the month
is always in `1..12` and the day in `1..31`. -/
theorem civilFromDays_ranges (n : Int) :
    1 ≤ (civilFromDays n).2.1 ∧ (civilFromDays n).2.1 ≤ 12 ∧
      1 ≤ (civilFromDays n).2.2 ∧ (civilFromDays n).2.2 ≤ 31 := by
  have hdoe0 : 0 ≤ (n + 719468) - ((n + 719468) / 146097) * 146097 := by omega
  have hdoe1 : (n + 719468) - ((n + 719468) / 146097) * 146097 ≤ 146096 := by
    omega
  have hb := yoe_doy_bounds _ hdoe0 hdoe1
  simp only [civilFromDays]
  constructor
  · split <;> omega
  constructor
  · split <;> omega
  simp only [leapAdjusted, daysBeforeYoe] at hb ⊢
  omega

/-- Every civil month spans at least 28 and at most 31 days. -/
theorem month_gap (y m : Int) (h1 : 1 ≤ m) (h2 : m ≤ 12) :
    daysFromCivil y m 1 + 28 ≤ firstOfNextMonth y m ∧
      firstOfNextMonth y m ≤ daysFromCivil y m 1 + 31 := by
  interval_cases m <;>
    simp only [daysFromCivil, firstOfNextMonth] <;> norm_num <;> omega

theorem startOfISOWeek_facts (n : Int) :
    weekday (startOfISOWeek n) = 1 ∧ startOfISOWeek n ≤ n ∧
      n ≤ startOfISOWeek n + 6 := by
  simp only [startOfISOWeek, weekday, startOfDay, addDays]
  split <;> omega

theorem endOfISOWeek_facts (n : Int) :
    weekday (endOfISOWeek n) = 0 ∧ n ≤ endOfISOWeek n ∧
      endOfISOWeek n ≤ n + 6 := by
  simp only [endOfISOWeek, startOfISOWeek, weekday, startOfDay, addDays]
  split <;> omega

theorem dayRange_length (s e : Int) :
    (dayRange s e).length = (e + 1 - s).toNat := by
  rw [dayRange, List.length_map, List.length_range]

theorem dayRange_head? (s e : Int) (h : s ≤ e) :
    (dayRange s e).head? = some s := by
  obtain ⟨k, hk⟩ : ∃ k : Nat, (e + 1 - s).toNat = k + 1 := ⟨(e - s).toNat, by omega⟩
  rw [dayRange, hk, List.range_succ_eq_map, List.map_cons, List.head?_cons]
  norm_num

theorem dayRange_getLast? (s e : Int) (h : s ≤ e) :
    (dayRange s e).getLast? = some e := by
  obtain ⟨k, hk⟩ : ∃ k : Nat, (e + 1 - s).toNat = k + 1 := ⟨(e - s).toNat, by omega⟩
  have hke : s + (k : Int) = e := by omega
  rw [dayRange, hk, List.range_succ, List.map_append, List.map_cons, List.map_nil,
    List.getLast?_concat, hke]

/-- The start of the month-view grid: `startOfISOWeek (startOfMonth n)`. -/
def gridStartOf (n : Int) : Int := startOfISOWeek (startOfMonth n)

/-- The end of the month-view grid:
`addDays (startOfISOWeek (addDays (endOfMonth n) 6)) 6`, i.e. the Sunday
of the week containing the sixth day after the last day of the month. -/
def gridEndOf (n : Int) : Int := endOfISOWeek (addDays (endOfMonth n) 6)

/-- Claim C6: for every date `d`, `startOfISOWeek d` falls on a Monday
(weekday 1), `startOfISOWeek d ≤ d ≤ endOfISOWeek d`, `endOfISOWeek d`
is exactly 6 days after `startOfISOWeek d`, and the week start is offset
from `d` by −6 days when `d` is a Sunday and by `1 − weekday` otherwise. -/
theorem C6_iso_week_bounds (n : Int) :
    weekday (startOfISOWeek n) = 1 ∧
      startOfISOWeek n ≤ n ∧ n ≤ endOfISOWeek n ∧
      endOfISOWeek n = startOfISOWeek n + 6 ∧
      startOfISOWeek n = n + (if weekday n = 0 then -6 else 1 - weekday n) := by
  simp only [startOfISOWeek, endOfISOWeek, weekday, startOfDay, addDays]
  by_cases h : (n + 4) % 7 = 0
  · simp only [if_pos h, and_true, true_and]; omega
  · simp only [if_neg h, and_true, true_and]; omega

/-- Claim C5 is false as stated: for the month containing 2026-03-15
(March 2026 ends on Tuesday 2026-03-31), the month grid ends 12 days
after the last day of the month, whereas the Sunday on or after the last
day (`endOfISOWeek` of it) is only 5 days after it, so the grid does not
end at the Sunday on or after the last day of the month. -/
theorem C5_month_grid_counterexample :
    (monthDays (daysFromCivil 2026 3 15)).getLast? =
        some (endOfMonth (daysFromCivil 2026 3 15) + 12) ∧
      endOfISOWeek (endOfMonth (daysFromCivil 2026 3 15)) =
        endOfMonth (daysFromCivil 2026 3 15) + 5 ∧
      (monthDays (daysFromCivil 2026 3 15)).getLast? ≠
        some (endOfISOWeek (endOfMonth (daysFromCivil 2026 3 15))) := by
  refine ⟨by decide, by decide, by decide⟩

/-- Claim C5 (amended): for every date `d`, the month view's visible
date set is the contiguous, nonempty range of days that starts at the
Monday on or before the first day of `d`'s month and ends at the Sunday
of the week containing the sixth day after the last day of `d`'s month —
a Sunday between 6 and 12 days after the last day, rather than the
Sunday on or after the last day — and its length is a multiple of 7. -/
theorem C5_month_grid_amended (n : Int) :
    visibleISOs View.month n = dayRange (gridStartOf n) (gridEndOf n) ∧
      weekday (gridStartOf n) = 1 ∧
      gridStartOf n ≤ startOfMonth n ∧
      startOfMonth n ≤ gridStartOf n + 6 ∧
      weekday (gridEndOf n) = 0 ∧
      endOfMonth n + 6 ≤ gridEndOf n ∧
      gridEndOf n ≤ endOfMonth n + 12 ∧
      (visibleISOs View.month n).head? = some (gridStartOf n) ∧
      (visibleISOs View.month n).getLast? = some (gridEndOf n) ∧
      (visibleISOs View.month n).length % 7 = 0 := by
  have hr := civilFromDays_ranges n
  have hg := month_gap (civilFromDays n).1 (civilFromDays n).2.1 hr.1 hr.2.1
  have hfl : startOfMonth n + 27 ≤ endOfMonth n := by
    simp only [startOfMonth, endOfMonth]
    omega
  have h1 := startOfISOWeek_facts (startOfMonth n)
  have h2 := endOfISOWeek_facts (addDays (endOfMonth n) 6)
  have hgeq : visibleISOs View.month n = dayRange (gridStartOf n) (gridEndOf n) := rfl
  have hse : gridStartOf n ≤ gridEndOf n := by
    simp only [gridStartOf, gridEndOf, addDays] at h1 h2 ⊢
    omega
  refine ⟨hgeq, h1.1, h1.2.1, h1.2.2, h2.1, ?_, ?_, ?_, ?_, ?_⟩
  · simp only [gridEndOf, addDays] at h2 ⊢; omega
  · simp only [gridEndOf, addDays] at h2 ⊢; omega
  · rw [hgeq]; exact dayRange_head? _ _ hse
  · rw [hgeq]; exact dayRange_getLast? _ _ hse
  · rw [hgeq, dayRange_length]
    simp only [gridStartOf, gridEndOf, weekday, addDays] at h1 h2 ⊢
    omega

/-! ### Data model

Habits, scheduled blocks, and the two per-date tables
(`habitChecksByDate`, `eventsByDate`).  JavaScript objects are modelled
as association lists (first match wins, fresh keys are appended, which
matches object insertion order). -/

/-- A habit in the registry. -/
structure Habit where
  id : String
  name : String
  active : Bool
deriving DecidableEq

/-- The `type` field of a scheduled block: `"habit"` or `"custom"`. -/
inductive EType where
  | habit
  | custom
deriving DecidableEq

/-- A scheduled block (event) on one date's timeline. -/
structure Block where
  id : String
  type : EType
  habitId : Option String
  title : String
  startMin : Int
  durationMin : Int
  color : String
  notes : String
deriving DecidableEq

/-- A partial update, as passed to `updateEventForDay`; `none` fields are
absent from the JavaScript patch object and leave the block's field
unchanged under object spread. -/
structure Patch where
  id : Option String := none
  type : Option EType := none
  habitId : Option (Option String) := none
  title : Option String := none
  startMin : Option Int := none
  durationMin : Option Int := none
  color : Option String := none
  notes : Option String := none
deriving DecidableEq

/-- Object spread `(...e, ...patch)`: fields present in the patch win. -/
def mergePatch (e : Block) (p : Patch) : Block :=
  { id := p.id.getD e.id
    type := p.type.getD e.type
    habitId := p.habitId.getD e.habitId
    title := p.title.getD e.title
    startMin := p.startMin.getD e.startMin
    durationMin := p.durationMin.getD e.durationMin
    color := p.color.getD e.color
    notes := p.notes.getD e.notes }

/-- Association-list lookup (JavaScript property read). -/
def alookup {α β : Type} [DecidableEq α] : List (α × β) → α → Option β
  | [], _ => none
  | (k, v) :: rest, k' => if k = k' then some v else alookup rest k'

/-- Association-list update (JavaScript property write: overwrite an
existing key in place, else append, matching object insertion order). -/
def aset {α β : Type} [DecidableEq α] : List (α × β) → α → β → List (α × β)
  | [], k, v => [(k, v)]
  | (k', v') :: rest, k, v =>
    if k' = k then (k, v) :: rest else (k', v') :: aset rest k v

/-- `eventsByDate`: map from date to that date's block list. -/
def EventsMap : Type := List (Int × List Block)

/-- `habitChecksByDate`: map from date to a map from habit id to its
checked flag. -/
def ChecksMap : Type := List (Int × List (String × Bool))

instance : DecidableEq EventsMap := by unfold EventsMap; infer_instance

instance : DecidableEq ChecksMap := by unfold ChecksMap; infer_instance

/-- `eventsByDate[iso] ?? []`: the block list stored for a date, reading
an absent key as the empty collection. -/
def getEvents (m : EventsMap) (iso : Int) : List Block :=
  (alookup m iso).getD []

/-- `habitChecksByDate[iso] ?? ` the empty row. -/
def getCheckRow (c : ChecksMap) (iso : Int) : List (String × Bool) :=
  (alookup c iso).getD []

/-- The check entry stored for `(iso, habitId)`, `none` when absent. -/
def checkEntry (c : ChecksMap) (iso : Int) (hid : String) : Option Bool :=
  alookup (getCheckRow c iso) hid

/-- Truthiness of `checks[h.id]`: an absent entry counts as false. -/
def checkedOn (c : ChecksMap) (iso : Int) (hid : String) : Bool :=
  (checkEntry c iso hid).getD false

/-- The whole persisted application state relevant to the registry
cascade (selected date and view play no role in `deleteHabit`). -/
structure AppState where
  habits : List Habit
  checks : ChecksMap
  events : EventsMap
deriving DecidableEq

/-! ### Operations from the source -/

/-- Models the environment's unique-id generator (`uid()` in the source)
as a deterministic supply: the `k`-th fresh id. -/
def uid (k : Nat) : String := "id" ++ toString k

/-- `deleteHabit` from the source: removes the habit from the registry,
removes its per-date check entries, and removes its habit-kind blocks on
every date (the filter keeps `e.type !== "habit" || e.habitId !== id`). -/
def deleteHabit (id : String) (s : AppState) : AppState :=
  { habits := s.habits.filter (fun h => h.id ≠ id)
    checks := s.checks.map (fun row => (row.1, row.2.filter (fun kv => kv.1 ≠ id)))
    events := s.events.map (fun row =>
      (row.1, row.2.filter (fun e => e.type ≠ EType.habit || e.habitId ≠ some id))) }

/-- `addEventForDay` from the source: appends the block to the date's
collection. -/
def addEventForDay (iso : Int) (evt : Block) (m : EventsMap) : EventsMap :=
  aset m iso (getEvents m iso ++ [evt])

/-- `updateEventForDay` from the source: merges the patch into every
block whose id matches (ids are unique in practice). -/
def updateEventForDay (iso : Int) (eventId : String) (p : Patch) (m : EventsMap) :
    EventsMap :=
  aset m iso ((getEvents m iso).map (fun e => if e.id = eventId then mergePatch e p else e))

/-- `deleteEventForDay` from the source: removes blocks whose id
matches. -/
def deleteEventForDay (iso : Int) (eventId : String) (m : EventsMap) : EventsMap :=
  aset m iso ((getEvents m iso).filter (fun e => e.id ≠ eventId))

/-- `moveEventToTime` from the source: a patch that only sets
`startMin`. -/
def moveEventToTime (iso : Int) (eventId : String) (newStartMin : Int) (m : EventsMap) :
    EventsMap :=
  updateEventForDay iso eventId { startMin := some newStartMin } m

/-! ### Strings, time parsing, and the event dialog -/

/-- JavaScript string whitespace (the forms a `trim` of a time or title
field can meet). -/
def jsWhitespace (c : Char) : Bool :=
  c == ' ' || c == '\t' || c == '\n' || c == '\r'

/-- `String.prototype.trim`: strip leading and trailing whitespace. -/
def jsTrim (s : String) : String :=
  ⟨((s.data.dropWhile jsWhitespace).reverse.dropWhile jsWhitespace).reverse⟩

/-- Decimal digit accumulation for `jsNumber`. -/
def digitsToNat : List Char → Nat → Option Nat
  | [], acc => some acc
  | c :: rest, acc =>
    if c.isDigit then digitsToNat rest (10 * acc + (c.toNat - 48)) else none

/-- Models JavaScript `Number(string)` on the integer fragment a time
field component can hold: surrounding whitespace is ignored, the empty
string coerces to `0`, an optionally signed nonempty digit string parses
as a decimal integer, and anything else is NaN (`none`).  (Fractional,
hexadecimal and exponent forms are outside what this application's
`HH:MM` strings can produce and are out of scope of the model.) -/
def jsNumber (s : String) : Option Int :=
  match (jsTrim s).data with
  | [] => some 0
  | '-' :: rest =>
    if rest.isEmpty then none else (digitsToNat rest 0).map (fun n => -(n : Int))
  | '+' :: rest =>
    if rest.isEmpty then none else (digitsToNat rest 0).map (fun n => (n : Int))
  | l => (digitsToNat l 0).map (fun n => (n : Int))

/-- Split accumulator for `splitOnChar`. -/
def splitOnCharAux (sep : Char) : List Char → List Char → List (List Char)
  | [], acc => [acc.reverse]
  | c :: rest, acc =>
    if c = sep then acc.reverse :: splitOnCharAux sep rest []
    else splitOnCharAux sep rest (c :: acc)

/-- JavaScript `String.prototype.split` with a one-character separator:
`"".split(":") = [""]`, separators at the ends produce empty parts. -/
def splitOnChar (sep : Char) (s : String) : List String :=
  (splitOnCharAux sep s.data []).map (fun l => ⟨l⟩)

/-- `hhmmToMinutes` from the source: split on `":"`, coerce both parts
with `Number` (a missing part is `Number(undefined)`, NaN), and fall
back to `8 * 60` when either part is NaN. -/
def hhmmToMinutes (hhmm : String) : Int :=
  let parts := splitOnChar ':' hhmm
  let hh := parts[0]?.bind jsNumber
  let mm := parts[1]?.bind jsNumber
  match hh, mm with
  | some h, some m => h * 60 + m
  | _, _ => 8 * 60

/-- The event dialog's form state.  `formDuration` is modelled as the
integer value of the number input; the source's `Number(formDuration) ||
30` zero/NaN fallback is modelled by the zero check in
`saveEventModal`. -/
structure Form where
  eventModalISO : Int
  editingEventId : Option String
  formTime : String
  formTitle : String
  formDuration : Int
  formColor : String
  formNotes : String
deriving DecidableEq

/-- `saveEventModal` from the source: refuse silently when the trimmed
title is empty; otherwise create a custom block (no editing id) or patch
the edited block's five form-backed fields. -/
def saveEventModal (supply : Nat) (form : Form) (events : EventsMap) : EventsMap :=
  let title := jsTrim form.formTitle
  if title = "" then events
  else
    let iso := form.eventModalISO
    let startMin := hhmmToMinutes form.formTime
    let durationMin := max 5 (if form.formDuration = 0 then 30 else form.formDuration)
    let color := if form.formColor = "" then ("#93c5fd") else form.formColor
    let notes := form.formNotes
    match form.editingEventId with
    | none =>
      addEventForDay iso
        { id := uid supply, type := EType.custom, habitId := none, title := title,
          startMin := startMin, durationMin := durationMin, color := color,
          notes := notes } events
    | some eid =>
      updateEventForDay iso eid
        { title := some title, startMin := some startMin,
          durationMin := some durationMin, color := some color,
          notes := some notes } events

/-! ### Completion aggregation -/

/-- The result of `completionForRange`. -/
structure Completion where
  done : Nat
  total : Nat
  pct : Nat
deriving DecidableEq

/-- JavaScript `Math.round ((done / total) * 100)` for nonnegative
counts, modelled exactly on rationals: round half up, i.e.
`⌊(200 done + total) / (2 total)⌋`. -/
def roundPct (done total : Nat) : Nat :=
  (200 * done + total) / (2 * total)

/-- `completionForRange` from the source: walk every date of the
inclusive range and every active habit, counting pairs and checked
pairs. -/
def completionForRange (habits : List Habit) (checks : ChecksMap)
    (startIso endIso : Int) : Completion :=
  let days := dayRange startIso endIso
  let habitsActive := habits.filter (fun h => h.active)
  if habitsActive.length = 0 then ⟨0, 0, 0⟩
  else
    let counts := days.foldl
      (fun acc iso =>
        habitsActive.foldl
          (fun acc2 h =>
            (acc2.1 + (if checkedOn checks iso h.id then 1 else 0), acc2.2 + 1))
          acc)
      ((0 : Nat), (0 : Nat))
    let pct := if counts.2 ≠ 0 then roundPct counts.1 counts.2 else 0
    ⟨counts.1, counts.2, pct⟩

/-- The specification's reading of the completion aggregate: `total` is
the number of dates times the number of active habits, `done` counts the
checked `(date, habit)` pairs, `pct` rounds `done / total × 100` (0 for
an empty denominator), and the whole result is zero when no habit is
active. -/
def completionSpec (habits : List Habit) (checks : ChecksMap)
    (startIso endIso : Int) : Completion :=
  let days := dayRange startIso endIso
  let act := habits.filter (fun h => h.active)
  if act.length = 0 then ⟨0, 0, 0⟩
  else
    let total := days.length * act.length
    let done := (days.map (fun iso => (act.filter (fun h => checkedOn checks iso h.id)).length)).sum
    ⟨done, total, if total = 0 then 0 else roundPct done total⟩

/-! ### Default-block materializer -/

/-- `TIME_GRID_STEP_MIN` from the source. -/
def TIME_GRID_STEP_MIN : Int := 15

/-- `snapToTimeGrid` from the source: `Math.ceil (minutes / 15) * 15`,
the least multiple of the grid step that is ≥ `minutes`. -/
def snapToTimeGrid (minutes : Int) : Int :=
  ((minutes + TIME_GRID_STEP_MIN - 1) / TIME_GRID_STEP_MIN) * TIME_GRID_STEP_MIN

/-- `Math.max` over a nonempty argument list. -/
def listMax : List Int → Int
  | [] => 0
  | x :: rest => rest.foldl max x

/-- The materializer's state: the events table plus the id supply. -/
structure MatState where
  events : EventsMap
  supply : Nat
deriving DecidableEq

/-- The fresh blocks the materializer creates for the missing habits,
walking the cursor `cursor ↦ snapToTimeGrid (cursor + 30 + 15)`. -/
def newHabitBlocks : List Habit → Int → Nat → List Block
  | [], _, _ => []
  | h :: rest, cursor, supply =>
    { id := uid supply, type := EType.habit, habitId := some h.id, title := h.name,
      startMin := cursor, durationMin := 30, color := "#bbf7d0", notes := "" } ::
      newHabitBlocks rest (snapToTimeGrid (cursor + 30 + TIME_GRID_STEP_MIN)) (supply + 1)

/-- `existing` in the materializer's per-date pass: the date's stored
block list. -/
def existingOf (st : MatState) (iso : Int) : List Block :=
  getEvents st.events iso

/-- `habitBlocks` in the materializer's per-date pass: the existing
blocks of kind habit. -/
def habitBlocksOf (st : MatState) (iso : Int) : List Block :=
  (existingOf st iso).filter (fun e => e.type == EType.habit)

/-- `missingHabits` in the materializer's per-date pass: the active
habits whose id is not among the existing habit blocks' `habitId`s. -/
def missingOf (activeList : List Habit) (st : MatState) (iso : Int) : List Habit :=
  activeList.filter
    (fun h => !(decide (some h.id ∈ (habitBlocksOf st iso).map (fun e => e.habitId))))

/-- The initial placement cursor of the per-date pass:
`snapToTimeGrid lastEnd` where `lastEnd` is `08:00` for a day without
habit blocks, else the max of `startMin + durationMin` over the existing
habit blocks plus the grid step. -/
def initCursorOf (st : MatState) (iso : Int) : Int :=
  snapToTimeGrid
    (if (habitBlocksOf st iso).isEmpty then 480
     else listMax ((habitBlocksOf st iso).map (fun e => e.startMin + e.durationMin)) +
       TIME_GRID_STEP_MIN)

/-- One date's pass of `ensureDefaultHabitBlocksForDates`: find the
active habits with no habit-kind block on the date, compute the start
cursor (`08:00`, or after the last existing habit block), and append one
30-minute light-green block per missing habit. -/
def processDay (activeList : List Habit) (st : MatState) (iso : Int) : MatState :=
  if (missingOf activeList st iso).isEmpty then st
  else
    { events := aset st.events iso
        (existingOf st iso ++
          newHabitBlocks (missingOf activeList st iso) (initCursorOf st iso) st.supply)
      supply := st.supply + (missingOf activeList st iso).length }

/-- `ensureDefaultHabitBlocksForDates` from the source: no-op when there
is no active habit or no date, else process each date in order. -/
def ensureDefaultHabitBlocksForDates (habits : List Habit) (isos : List Int)
    (st : MatState) : MatState :=
  let activeHabits := habits.filter (fun h => h.active)
  if activeHabits.isEmpty || isos.isEmpty then st
  else isos.foldl (processDay activeHabits) st

/-! ### Association-list lemmas -/

theorem alookup_aset_self {α β : Type} [DecidableEq α] (m : List (α × β)) (k : α) (v : β) :
    alookup (aset m k v) k = some v := by
  induction m with
  | nil => simp [aset, alookup]
  | cons kv rest ih =>
    by_cases h : kv.1 = k
    · simp [aset, h, alookup]
    · simp [aset, h, alookup, ih]

theorem alookup_aset_ne {α β : Type} [DecidableEq α] (m : List (α × β)) (k k' : α) (v : β)
    (h : k' ≠ k) : alookup (aset m k v) k' = alookup m k' := by
  have hne : ¬k = k' := fun he => h he.symm
  induction m with
  | nil => simp [aset, alookup, hne]
  | cons kv rest ih =>
    obtain ⟨a, b⟩ := kv
    by_cases hk : a = k
    · subst hk
      simp [aset, alookup, hne]
    · by_cases hk' : a = k'
      · simp [aset, hk, alookup, hk', h]
      · simp [aset, hk, alookup, hk', ih]

theorem alookup_map_val {α β γ : Type} [DecidableEq α] (f : β → γ)
    (m : List (α × β)) (k : α) :
    alookup (m.map (fun row => (row.1, f row.2))) k = (alookup m k).map f := by
  induction m with
  | nil => simp [alookup]
  | cons kv rest ih =>
    by_cases h : kv.1 = k
    · simp [alookup, h]
    · simp [alookup, h, ih]

theorem getEvents_aset_self (m : EventsMap) (iso : Int) (l : List Block) :
    getEvents (aset m iso l) iso = l := by
  simp [getEvents, alookup_aset_self]

theorem getEvents_aset_ne (m : EventsMap) (iso iso' : Int) (l : List Block)
    (h : iso' ≠ iso) : getEvents (aset m iso l) iso' = getEvents m iso' := by
  simp [getEvents, alookup_aset_ne _ _ _ _ h]

/-! ### Claims C7, C9, C8 -/

/-- The specification's description of the moved block: `startMin`
becomes the drop minute and every other field (id, kind, habitId, title,
durationMin, color, notes) is kept; non-matching blocks are untouched. -/
def setStartOnly (eventId : String) (newMin : Int) (e : Block) : Block :=
  if e.id = eventId then
    { id := e.id, type := e.type, habitId := e.habitId, title := e.title,
      startMin := newMin, durationMin := e.durationMin, color := e.color,
      notes := e.notes }
  else e

/-- Claim C7: for every events table, date, block id, and minute value,
`moveEventToTime` rewrites the matching block's `startMin` to the new
minute, keeps all of that block's other fields, and leaves every other
block on every date unchanged. -/
theorem C7_move_event_only_startMin (mvs : EventsMap) (iso : Int) (eventId : String)
    (newMin : Int) (iso' : Int) :
    getEvents (moveEventToTime iso eventId newMin mvs) iso' =
      if iso' = iso then (getEvents mvs iso).map (setStartOnly eventId newMin)
      else getEvents mvs iso' := by
  have hfun :
      (fun e => if e.id = eventId then mergePatch e { startMin := some newMin } else e) =
        setStartOnly eventId newMin := by
    funext e
    simp only [mergePatch, setStartOnly]
    split <;> rfl
  rw [moveEventToTime, updateEventForDay, hfun]
  by_cases h : iso' = iso
  · subst h
    rw [if_pos rfl]
    exact getEvents_aset_self _ _ _
  · rw [getEvents_aset_ne _ _ _ _ h, if_neg h]

/-- Claim C9 is false as stated: patching an unknown block id on a date
that has no stored collection is not a pure no-op on the state — the
date key becomes present, mapping to an empty collection (observable via
`Object.keys` and in the persisted JSON). -/
theorem C9_unknown_id_counterexample :
    updateEventForDay 0 ("x") { } ([] : EventsMap) ≠ ([] : EventsMap) ∧
      updateEventForDay 0 ("x") { } ([] : EventsMap) = [(0, [])] := by
  exact ⟨by decide, by decide⟩

/-- Claim C9 (amended): patch, delete, and move targeting a block id not
present on the target date never raise and are observational no-ops:
every date's block collection reads back unchanged.  (The only state
change possible is the one of the counterexample: an absent target date
key becomes present, mapping to the empty collection.) -/
theorem C9_unknown_id_noop (mvs : EventsMap) (iso : Int) (eventId : String)
    (p : Patch) (newMin : Int) (iso' : Int)
    (h : eventId ∉ (getEvents mvs iso).map Block.id) :
    getEvents (updateEventForDay iso eventId p mvs) iso' = getEvents mvs iso' ∧
      getEvents (deleteEventForDay iso eventId mvs) iso' = getEvents mvs iso' ∧
      getEvents (moveEventToTime iso eventId newMin mvs) iso' = getEvents mvs iso' := by
  have hmap : ∀ q : Patch,
      (getEvents mvs iso).map (fun e => if e.id = eventId then mergePatch e q else e) =
        getEvents mvs iso := by
    intro q
    have : ∀ e ∈ getEvents mvs iso,
        (if e.id = eventId then mergePatch e q else e) = id e := by
      intro e he
      have : e.id ≠ eventId := by
        intro hid
        exact h (hid ▸ List.mem_map_of_mem Block.id he)
      simp [this]
    rw [List.map_congr_left this, List.map_id]
  have hfil :
      (getEvents mvs iso).filter (fun e => e.id ≠ eventId) = getEvents mvs iso := by
    rw [List.filter_eq_self]
    intro e he
    have : e.id ≠ eventId := by
      intro hid
      exact h (hid ▸ List.mem_map_of_mem Block.id he)
    simpa using this
  by_cases hiso : iso' = iso
  · subst hiso
    refine ⟨?_, ?_, ?_⟩
    · rw [updateEventForDay, getEvents_aset_self, hmap]
    · rw [deleteEventForDay, getEvents_aset_self, hfil]
    · rw [moveEventToTime, updateEventForDay, getEvents_aset_self, hmap]
  · refine ⟨?_, ?_, ?_⟩
    · rw [updateEventForDay, getEvents_aset_ne _ _ _ _ hiso]
    · rw [deleteEventForDay, getEvents_aset_ne _ _ _ _ hiso]
    · rw [moveEventToTime, updateEventForDay, getEvents_aset_ne _ _ _ _ hiso]

theorem C9_unknown_id_noop_witness :
    "x" ∉ (getEvents ([(0, [])] : EventsMap) 0).map Block.id ∧
      (getEvents (updateEventForDay 0 ("x") { } ([(0, [])] : EventsMap)) 0 =
          getEvents ([(0, [])] : EventsMap) 0 ∧
        getEvents (deleteEventForDay 0 ("x") ([(0, [])] : EventsMap)) 0 =
          getEvents ([(0, [])] : EventsMap) 0 ∧
        getEvents (moveEventToTime 0 ("x") 5 ([(0, [])] : EventsMap)) 0 =
          getEvents ([(0, [])] : EventsMap) 0) :=
  ⟨by decide, C9_unknown_id_noop [(0, [])] 0 ("x") { } 5 0 (by decide)⟩

/-- Claim C8: saving the event dialog with a title that trims to the
empty string is a silent no-op: the events table (every date's
collection) is returned unchanged, and no exception can surface (the
operation is a total function). -/
theorem C8_blank_title_noop (supply : Nat) (form : Form) (events : EventsMap)
    (h : jsTrim form.formTitle = "") :
    saveEventModal supply form events = events := by
  simp [saveEventModal, h]

theorem C8_blank_title_noop_witness :
    jsTrim (" \t ") = "" ∧
      saveEventModal 0
        { eventModalISO := 0, editingEventId := none, formTime := "09:00",
          formTitle := " \t ", formDuration := 30, formColor := "#93c5fd",
          formNotes := "" } ([] : EventsMap) = ([] : EventsMap) :=
  ⟨by decide,
    C8_blank_title_noop 0
      { eventModalISO := 0, editingEventId := none, formTime := "09:00",
        formTitle := " \t ", formDuration := 30, formColor := "#93c5fd",
        formNotes := "" } ([] : EventsMap) (by decide)⟩

/-! ### Claim C2 -/

theorem alookup_filter_ne {β : Type} (l : List (String × β)) (id hid : String) :
    alookup (l.filter (fun kv => kv.1 ≠ id)) hid =
      if hid = id then none else alookup l hid := by
  induction l with
  | nil => by_cases h : hid = id <;> simp [alookup, h]
  | cons kv rest ih =>
    obtain ⟨a, b⟩ := kv
    by_cases ha : a = id <;> by_cases hh : hid = id <;> by_cases hah : a = hid <;>
      simp_all [List.filter_cons, alookup]

/-- Claim C2: `deleteHabit id` removes exactly the habit with that id
from the registry, removes that habit's check entry from every date
(leaving every other habit's entries), and removes from every date
exactly the blocks of kind habit whose `habitId` is that id (custom
blocks and other habits' blocks survive, in order). -/
theorem C2_delete_habit_cascade (s : AppState) (id : String) :
    (∀ h : Habit, h ∈ (deleteHabit id s).habits ↔ h ∈ s.habits ∧ h.id ≠ id) ∧
      (∀ iso : Int, ∀ hid : String,
        checkEntry (deleteHabit id s).checks iso hid =
          if hid = id then none else checkEntry s.checks iso hid) ∧
      (∀ iso : Int,
        getEvents (deleteHabit id s).events iso =
          (getEvents s.events iso).filter
            (fun e => !(e.type == EType.habit && e.habitId == some id))) := by
  refine ⟨?_, ?_, ?_⟩
  · intro h
    simp [deleteHabit, List.mem_filter]
  · intro iso hid
    simp only [deleteHabit, checkEntry, getCheckRow]
    rw [alookup_map_val (fun r => r.filter (fun kv => kv.1 ≠ id)) s.checks iso]
    rcases alookup s.checks iso with _ | row
    · simp [alookup]
    · simp only [Option.map_some, Option.getD_some]
      exact alookup_filter_ne row id hid
  · intro iso
    simp only [deleteHabit, getEvents]
    rw [alookup_map_val
      (fun r => r.filter (fun e => e.type ≠ EType.habit || e.habitId ≠ some id))
      s.events iso]
    rcases alookup s.events iso with _ | l
    · simp
    · simp only [Option.map_some, Option.getD_some]
      apply List.filter_congr
      intro e _
      by_cases h1 : e.type = EType.habit <;> by_cases h2 : e.habitId = some id <;>
        simp [h1, h2]

/-! ### Claim C1 -/

theorem completion_inner (checks : ChecksMap) (iso : Int) (act : List Habit) :
    ∀ acc : Nat × Nat,
      act.foldl
        (fun acc2 h =>
          (acc2.1 + (if checkedOn checks iso h.id then 1 else 0), acc2.2 + 1)) acc =
        (acc.1 + (act.filter (fun h => checkedOn checks iso h.id)).length,
          acc.2 + act.length) := by
  induction act with
  | nil => intro acc; simp
  | cons h rest ih =>
    intro acc
    rw [List.foldl_cons, ih, List.filter_cons]
    by_cases hc : checkedOn checks iso h.id = true <;>
      simp [hc, Prod.ext_iff] <;> omega

theorem completion_outer (checks : ChecksMap) (act : List Habit) :
    ∀ (days : List Int) (acc : Nat × Nat),
      days.foldl
        (fun acc iso =>
          act.foldl
            (fun acc2 h =>
              (acc2.1 + (if checkedOn checks iso h.id then 1 else 0), acc2.2 + 1)) acc)
        acc =
        (acc.1 +
            ((days.map
              (fun iso => (act.filter (fun h => checkedOn checks iso h.id)).length)).sum),
          acc.2 + days.length * act.length) := by
  intro days
  induction days with
  | nil => intro acc; simp
  | cons d rest ih =>
    intro acc
    rw [List.foldl_cons, completion_inner, ih]
    simp [Prod.ext_iff, List.length_cons]
    constructor <;> ring

/-- Claim C1: `completionForRange` returns exactly the specification's
aggregate: `total` is the number of dates in the inclusive range times
the number of active habits, `done` counts the checked (date, active
habit) pairs (absent entries count as false), `pct` is the half-up
rounding of `done / total × 100` (0 for an empty range), and the whole
result is `(0, 0, 0)` when no habit is active. -/
theorem C1_completion_matches_spec (habits : List Habit) (checks : ChecksMap)
    (startIso endIso : Int) :
    completionForRange habits checks startIso endIso =
      completionSpec habits checks startIso endIso := by
  simp only [completionForRange, completionSpec]
  by_cases hz : (habits.filter (fun h => h.active)).length = 0
  · simp [hz]
  · simp only [hz, if_false]
    rw [completion_outer]
    simp only [Nat.zero_add, zero_add]
    have : (dayRange startIso endIso).length * (habits.filter (fun h => h.active)).length =
        (habits.filter (fun h => h.active)).length * (dayRange startIso endIso).length := by
      ring
    by_cases ht : (dayRange startIso endIso).length * (habits.filter (fun h => h.active)).length = 0 <;>
      simp [ht, Completion.mk.injEq]

/-! ### Claim C10 -/

/-- When either component of the time string fails `Number` coercion,
`hhmmToMinutes` falls back to 480 (08:00). -/
theorem hhmm_malformed_default (s : String)
    (h : (splitOnChar ':' s)[0]?.bind jsNumber = none ∨
      (splitOnChar ':' s)[1]?.bind jsNumber = none) :
    hhmmToMinutes s = 480 := by
  rcases h0 : (splitOnChar ':' s)[0]?.bind jsNumber with _ | v0 <;>
    rcases h1 : (splitOnChar ':' s)[1]?.bind jsNumber with _ | v1 <;>
      simp only [hhmmToMinutes, h0, h1] <;> first
        | rfl
        | (exfalso; rcases h with h | h
           · rw [h0] at h; exact Option.noConfusion h
           · rw [h1] at h; exact Option.noConfusion h)

/-- Claim C10: a time string whose hour or minute component does not
coerce to a number makes `hhmmToMinutes` return 480 rather than fail;
consequently saving the dialog with such a time behaves exactly as
saving with "08:00" (startMin 480) — concretely, saving a new event with
a malformed time produces a block with `startMin = 480`. -/
theorem C10_malformed_time_defaults (supply : Nat) (form : Form) (events : EventsMap)
    (h : (splitOnChar ':' form.formTime)[0]?.bind jsNumber = none ∨
      (splitOnChar ':' form.formTime)[1]?.bind jsNumber = none) :
    hhmmToMinutes form.formTime = 480 ∧
      saveEventModal supply form events =
        saveEventModal supply { form with formTime := "08:00" } events := by
  have h1 : hhmmToMinutes form.formTime = 480 := hhmm_malformed_default _ h
  have h2 : hhmmToMinutes ("08:00") = 480 := by decide
  exact ⟨h1, by simp [saveEventModal, h1, h2]⟩

theorem C10_malformed_time_defaults_witness :
    ((splitOnChar ':' ("ab:10"))[0]?.bind jsNumber = none ∨
        (splitOnChar ':' ("ab:10"))[1]?.bind jsNumber = none) ∧
      (hhmmToMinutes ("ab:10") = 480 ∧
        saveEventModal 0
          { eventModalISO := 0, editingEventId := none, formTime := "ab:10",
            formTitle := "Gym", formDuration := 30, formColor := "#93c5fd",
            formNotes := "" } ([] : EventsMap) =
        saveEventModal 0
          { eventModalISO := 0, editingEventId := none, formTime := "08:00",
            formTitle := "Gym", formDuration := 30, formColor := "#93c5fd",
            formNotes := "" } ([] : EventsMap)) :=
  ⟨Or.inl (by decide),
    C10_malformed_time_defaults 0
      { eventModalISO := 0, editingEventId := none, formTime := "ab:10",
        formTitle := "Gym", formDuration := 30, formColor := "#93c5fd",
        formNotes := "" } ([] : EventsMap) (Or.inl (by decide))⟩

/-! ### Claims C4 and C3: the materializer -/

/-- The specification's placement cursor sequence: start at the snapped
initial cursor, then advance through
`cursor ↦ ceil_to_grid (cursor + 30 + gridStep)`. -/
def cursorIter (c0 : Int) : Nat → Int
  | 0 => c0
  | k + 1 => snapToTimeGrid (cursorIter c0 k + 30 + TIME_GRID_STEP_MIN)

theorem cursorIter_shift (c : Int) (k : Nat) :
    cursorIter c (k + 1) =
      cursorIter (snapToTimeGrid (c + 30 + TIME_GRID_STEP_MIN)) k := by
  induction k with
  | zero => rfl
  | succ k ih => rw [cursorIter, ih, cursorIter]

theorem range_map_cursorIter (c : Int) (k : Nat) :
    (List.range (k + 1)).map (fun j => cursorIter c j) =
      c :: (List.range k).map
        (fun j => cursorIter (snapToTimeGrid (c + 30 + TIME_GRID_STEP_MIN)) j) := by
  rw [List.range_succ_eq_map, List.map_cons, List.map_map]
  refine congrArg _ ?_
  refine List.map_congr_left ?_
  intro j _
  exact cursorIter_shift c j

theorem newHabitBlocks_maps (missing : List Habit) :
    ∀ (cursor : Int) (supply : Nat),
      ((newHabitBlocks missing cursor supply).map (fun e => e.habitId) =
          missing.map (fun h => some h.id)) ∧
        ((newHabitBlocks missing cursor supply).map (fun e => e.type) =
          List.replicate missing.length EType.habit) ∧
        ((newHabitBlocks missing cursor supply).map (fun e => e.durationMin) =
          List.replicate missing.length 30) ∧
        ((newHabitBlocks missing cursor supply).map (fun e => e.startMin) =
          (List.range missing.length).map (fun k => cursorIter cursor k)) := by
  induction missing with
  | nil => intro cursor supply; simp [newHabitBlocks]
  | cons h rest ih =>
    intro cursor supply
    obtain ⟨ih1, ih2, ih3, ih4⟩ :=
      ih (snapToTimeGrid (cursor + 30 + TIME_GRID_STEP_MIN)) (supply + 1)
    refine ⟨?_, ?_, ?_, ?_⟩
    · rw [newHabitBlocks, List.map_cons, List.map_cons, ih1]
    · rw [newHabitBlocks, List.map_cons, List.length_cons, List.replicate_succ, ih2]
    · rw [newHabitBlocks, List.map_cons, List.length_cons, List.replicate_succ, ih3]
    · rw [newHabitBlocks, List.map_cons, List.length_cons, range_map_cursorIter, ih4]

theorem newHabitBlocks_all_habit (missing : List Habit) :
    ∀ (cursor : Int) (supply : Nat),
      (newHabitBlocks missing cursor supply).filter (fun e => e.type == EType.habit) =
        newHabitBlocks missing cursor supply := by
  induction missing with
  | nil => intro cursor supply; rfl
  | cons h rest ih =>
    intro cursor supply
    rw [newHabitBlocks, List.filter_cons]
    simp only [beq_self_eq_true, if_true]
    rw [ih]

/-- Claim C4: the per-date placement: the existing collection is kept as
a prefix; the appended blocks follow the missing active habits in
registry order, each with duration 30 and `habitId` pointing at its
habit; the `k`-th appended block starts at the `k`-th cursor value,
where the cursor starts at 480 (08:00) for a day without habit blocks
and otherwise at the snapped `max (startMin + durationMin) + step`, and
advances through `ceil_to_grid (cursor + 30 + step)`.  Concretely, an
empty day with two active habits and grid step 15 receives blocks at 480
(08:00) and 525 (08:45), both of duration 30. -/
theorem C4_placement (act : List Habit) (st : MatState) (iso : Int) :
    (getEvents (processDay act st iso).events iso).take (existingOf st iso).length =
        existingOf st iso ∧
      ((getEvents (processDay act st iso).events iso).drop
            (existingOf st iso).length).map (fun e => e.startMin) =
        (List.range (missingOf act st iso).length).map
          (fun k => cursorIter (initCursorOf st iso) k) ∧
      ((getEvents (processDay act st iso).events iso).drop
            (existingOf st iso).length).map (fun e => e.durationMin) =
        List.replicate (missingOf act st iso).length 30 ∧
      ((getEvents (processDay act st iso).events iso).drop
            (existingOf st iso).length).map (fun e => e.habitId) =
        (missingOf act st iso).map (fun h => some h.id) ∧
      initCursorOf st iso =
        (if (habitBlocksOf st iso).isEmpty then 480
         else snapToTimeGrid
           (listMax ((habitBlocksOf st iso).map (fun e => e.startMin + e.durationMin)) +
             TIME_GRID_STEP_MIN)) ∧
      (getEvents (ensureDefaultHabitBlocksForDates
            [⟨"h1", "H1", true⟩, ⟨"h2", "H2", true⟩] [0] ⟨[], 0⟩).events 0).map
          (fun e => (e.startMin, e.durationMin)) = [(480, 30), (525, 30)] := by
  obtain ⟨m1, _m2, m3, m4⟩ :=
    newHabitBlocks_maps (missingOf act st iso) (initCursorOf st iso) st.supply
  have hcur : initCursorOf st iso =
      (if (habitBlocksOf st iso).isEmpty then 480
       else snapToTimeGrid
         (listMax ((habitBlocksOf st iso).map (fun e => e.startMin + e.durationMin)) +
           TIME_GRID_STEP_MIN)) := by
    rw [initCursorOf]
    split
    · decide
    · rfl
  have hconc : (getEvents (ensureDefaultHabitBlocksForDates
        [⟨"h1", "H1", true⟩, ⟨"h2", "H2", true⟩] [0] ⟨[], 0⟩).events 0).map
      (fun e => (e.startMin, e.durationMin)) = [(480, 30), (525, 30)] := by decide
  by_cases hm : (missingOf act st iso).isEmpty
  · have hlen : (missingOf act st iso).length = 0 := by
      rw [List.isEmpty_iff] at hm
      rw [hm]
      rfl
    rw [processDay, if_pos hm]
    refine ⟨?_, ?_, ?_, ?_, hcur, hconc⟩
    · exact List.take_length (getEvents st.events iso)
    · rw [hlen, List.range_zero, List.map_nil]
      rw [show existingOf st iso = getEvents st.events iso from rfl, List.drop_length,
        List.map_nil]
    · rw [hlen, List.replicate_zero]
      rw [show existingOf st iso = getEvents st.events iso from rfl, List.drop_length,
        List.map_nil]
    · rw [List.isEmpty_iff] at hm
      rw [hm, List.map_nil]
      rw [show existingOf st iso = getEvents st.events iso from rfl, List.drop_length,
        List.map_nil]
  · rw [processDay, if_neg hm]
    simp only [getEvents_aset_self]
    refine ⟨List.take_left _ _, ?_, ?_, ?_, hcur, hconc⟩
    · rw [List.drop_left, m4]
    · rw [List.drop_left, m3]
    · rw [List.drop_left, m1]

/-- The date `iso` already carries a habit-kind block for habit `h`. -/
def hasBlockFor (ev : EventsMap) (iso : Int) (h : Habit) : Prop :=
  some h.id ∈
    ((getEvents ev iso).filter (fun e => e.type == EType.habit)).map (fun e => e.habitId)

theorem processDay_covers (act : List Habit) (st : MatState) (iso : Int)
    (h : Habit) (hmem : h ∈ act) :
    hasBlockFor (processDay act st iso).events iso h := by
  by_cases hm : (missingOf act st iso).isEmpty
  · rw [processDay, if_pos hm]
    by_contra hc
    have hmiss : h ∈ missingOf act st iso := by
      refine List.mem_filter.mpr ⟨hmem, ?_⟩
      simp only [Bool.not_eq_true', decide_eq_false_iff_not]
      exact hc
    rw [List.isEmpty_iff] at hm
    rw [hm] at hmiss
    exact List.not_mem_nil h hmiss
  · rw [processDay, if_neg hm]
    show some h.id ∈ _
    rw [getEvents_aset_self, List.filter_append, List.map_append]
    by_cases hex : some h.id ∈ (habitBlocksOf st iso).map (fun e => e.habitId)
    · exact List.mem_append_left _ hex
    · have hmiss : h ∈ missingOf act st iso := by
        refine List.mem_filter.mpr ⟨hmem, ?_⟩
        simp only [Bool.not_eq_true', decide_eq_false_iff_not]
        exact hex
      refine List.mem_append_right _ ?_
      rw [newHabitBlocks_all_habit,
        (newHabitBlocks_maps (missingOf act st iso) (initCursorOf st iso) st.supply).1]
      exact List.mem_map_of_mem (fun h => some h.id) hmiss

theorem processDay_preserves (act : List Habit) (st : MatState) (iso iso' : Int)
    (h : Habit) (hb : hasBlockFor st.events iso' h) :
    hasBlockFor (processDay act st iso).events iso' h := by
  by_cases hm : (missingOf act st iso).isEmpty
  · rw [processDay, if_pos hm]; exact hb
  · rw [processDay, if_neg hm]
    by_cases hiso : iso' = iso
    · subst hiso
      show some h.id ∈ _
      rw [getEvents_aset_self, List.filter_append, List.map_append]
      exact List.mem_append_left _ hb
    · show some h.id ∈ _
      rw [getEvents_aset_ne _ _ _ _ hiso]
      exact hb

theorem foldl_processDay_preserves (act : List Habit) (iso' : Int) (h : Habit) :
    ∀ (isos : List Int) (st : MatState), hasBlockFor st.events iso' h →
      hasBlockFor ((isos.foldl (processDay act) st).events) iso' h := by
  intro isos
  induction isos with
  | nil => intro st hb; exact hb
  | cons d rest ih =>
    intro st hb
    rw [List.foldl_cons]
    exact ih _ (processDay_preserves act st d iso' h hb)

theorem foldl_processDay_covers (act : List Habit) :
    ∀ (isos : List Int) (st : MatState) (iso : Int), iso ∈ isos →
      ∀ h ∈ act, hasBlockFor ((isos.foldl (processDay act) st).events) iso h := by
  intro isos
  induction isos with
  | nil => intro st iso hiso; exact absurd hiso (List.not_mem_nil iso)
  | cons d rest ih =>
    intro st iso hiso h hmem
    rw [List.foldl_cons]
    rcases List.mem_cons.mp hiso with heq | hmem'
    · subst heq
      exact foldl_processDay_preserves act iso h rest _
        (processDay_covers act st iso h hmem)
    · exact ih _ iso hmem' h hmem

theorem processDay_noop (act : List Habit) (st : MatState) (iso : Int)
    (hall : ∀ h ∈ act, hasBlockFor st.events iso h) :
    processDay act st iso = st := by
  rw [processDay, if_pos]
  rw [List.isEmpty_iff, missingOf, List.filter_eq_nil_iff]
  intro h hmem
  simp only [Bool.not_eq_true', decide_eq_false_iff_not, Decidable.not_not]
  exact hall h hmem

theorem foldl_processDay_noop (act : List Habit) :
    ∀ (isos : List Int) (st : MatState),
      (∀ iso ∈ isos, ∀ h ∈ act, hasBlockFor st.events iso h) →
      isos.foldl (processDay act) st = st := by
  intro isos
  induction isos with
  | nil => intro st _; rfl
  | cons d rest ih =>
    intro st hall
    rw [List.foldl_cons, processDay_noop act st d (hall d (List.mem_cons_self d rest)),
      ih st (fun iso hiso => hall iso (List.mem_cons_of_mem d hiso))]

/-- Claim C3: invoking the materializer twice in a row with the same
dates and habit registry yields the identical event collection as
invoking it once (the second pass finds no missing habit on any
processed date and changes nothing). -/
theorem C3_materializer_idempotent (habits : List Habit) (isos : List Int)
    (st : MatState) :
    (ensureDefaultHabitBlocksForDates habits isos
        (ensureDefaultHabitBlocksForDates habits isos st)).events =
      (ensureDefaultHabitBlocksForDates habits isos st).events := by
  rw [ensureDefaultHabitBlocksForDates, ensureDefaultHabitBlocksForDates]
  by_cases hg : ((habits.filter (fun h => h.active)).isEmpty || isos.isEmpty) = true
  · rw [if_pos hg, if_pos hg]
  · rw [if_neg hg, if_neg hg,
      foldl_processDay_noop (habits.filter (fun h => h.active)) isos _
        (fun iso hiso h hmem =>
          foldl_processDay_covers (habits.filter (fun h => h.active)) isos st iso hiso h hmem)]

end TBH
